import Mathlib

set_option maxRecDepth 16384

/-!
Verification development for the Google Meet subtitle processor
(`subtitle_processor.py`).

Python strings are modelled as `List Char`, timestamps (Python floats from
`time.time()`) as `ℚ`.  The two clock reads that `process_subtitle` performs
(`update_time = time.time()` at the top of the call, and `timestamp =
time.time()` inside `_save_to_db`) are passed in as explicit parameters
`update_time` and `db_time`.

`difflib.SequenceMatcher(None, a, b)` is modelled by its documented contract
for `find_longest_match` (the longest block of matching characters; among
maximal blocks the one starting earliest in `a`, then earliest in `b`) and by
the divide-and-conquer recursion of `get_matching_blocks` / `get_opcodes`.
The `autojunk` heuristic, which only changes behaviour when the second string
has at least 200 characters, is not modelled.
-/

/-- Whitespace, as used by Python's `str.split()` / `str.strip()` on the
character set relevant here. -/
def isSpace (c : Char) : Bool :=
  c = ' ' || c = '\t' || c = '\n' || c = '\r'

/-- Python `text.split()`: split on runs of whitespace, dropping empty pieces. -/
def words (s : List Char) : List (List Char) :=
  (s.splitOnP isSpace).filter (fun w => !w.isEmpty)

/-- Python `' '.join(ws)`. -/
def spaceJoin (ws : List (List Char)) : List Char :=
  List.intercalate [' '] ws

/-- Python `s.strip()`: drop leading and trailing whitespace. -/
def strip (s : List Char) : List Char :=
  ((s.dropWhile isSpace).reverse.dropWhile isSpace).reverse

/-- Python's substring test `needle in haystack`. -/
def containsSub (needle : List Char) : List Char → Bool
  | [] => needle.isEmpty
  | c :: rest => needle.isPrefixOf (c :: rest) || containsSub needle rest

/-- Length of the common initial run of two character lists. -/
def commonLen : List Char → List Char → Nat
  | a :: as, b :: bs => if a = b then commonLen as bs + 1 else 0
  | _, _ => 0

/-- Size of the matching block of `a` and `b` starting at `(i, j)`, truncated
to the windows `[i, ahi)` and `[j, bhi)`. -/
def matchLenAt (a b : List Char) (ahi bhi i j : Nat) : Nat :=
  commonLen ((a.drop i).take (ahi - i)) ((b.drop j).take (bhi - j))

/-- One candidate step of the longest-match scan: keep the current best
unless the block starting at `ij` is strictly longer. -/
def flmStep (a b : List Char) (ahi bhi : Nat) (s : Nat × Nat × Nat)
    (ij : Nat × Nat) : Nat × Nat × Nat :=
  if s.2.2 < matchLenAt a b ahi bhi ij.1 ij.2 then
    (ij.1, ij.2, matchLenAt a b ahi bhi ij.1 ij.2)
  else s

/-- All start positions `(i, j)` with `alo ≤ i < ahi`, `blo ≤ j < bhi`, in
lexicographic order. -/
def indexPairs (alo ahi blo bhi : Nat) : List (Nat × Nat) :=
  (List.range' alo (ahi - alo)).flatMap fun i =>
    (List.range' blo (bhi - blo)).map fun j => (i, j)

/-- `SequenceMatcher.find_longest_match(alo, ahi, blo, bhi)`: the longest
matching block inside the windows; among maximal blocks, the one starting
earliest in `a`, then earliest in `b`; `(alo, blo, 0)` when there is none. -/
def flm (a b : List Char) (alo ahi blo bhi : Nat) : Nat × Nat × Nat :=
  (indexPairs alo ahi blo bhi).foldl (flmStep a b ahi bhi) (alo, blo, 0)

theorem commonLen_le_left (x y : List Char) : commonLen x y ≤ x.length := by
  induction x generalizing y with
  | nil => cases y <;> simp [commonLen]
  | cons a as ih =>
    cases y with
    | nil => simp [commonLen]
    | cons b bs =>
      by_cases h : a = b
      · simpa [commonLen, h] using ih bs
      · simp [commonLen, h]

theorem commonLen_le_right (x y : List Char) : commonLen x y ≤ y.length := by
  induction x generalizing y with
  | nil => cases y <;> simp [commonLen]
  | cons a as ih =>
    cases y with
    | nil => simp [commonLen]
    | cons b bs =>
      by_cases h : a = b
      · simpa [commonLen, h] using ih bs
      · simp [commonLen, h]

theorem commonLen_self_append (x t : List Char) : commonLen x (x ++ t) = x.length := by
  induction x with
  | nil => cases t <;> simp [commonLen]
  | cons a as ih => simp [commonLen, ih]

theorem matchLenAt_le_a (a b : List Char) (ahi bhi i j : Nat) :
    matchLenAt a b ahi bhi i j ≤ ahi - i :=
  le_trans (commonLen_le_left _ _) (List.length_take_le _ _)

theorem matchLenAt_le_b (a b : List Char) (ahi bhi i j : Nat) :
    matchLenAt a b ahi bhi i j ≤ bhi - j :=
  le_trans (commonLen_le_right _ _) (List.length_take_le _ _)

theorem foldl_flmStep_eq (a b : List Char) (ahi bhi : Nat) (l : List (Nat × Nat))
    (s : Nat × Nat × Nat)
    (h : ∀ ij ∈ l, matchLenAt a b ahi bhi ij.1 ij.2 ≤ s.2.2) :
    l.foldl (flmStep a b ahi bhi) s = s := by
  induction l with
  | nil => rfl
  | cons x xs ih =>
    have hx : flmStep a b ahi bhi s x = s := by
      unfold flmStep
      rw [if_neg (Nat.not_lt.mpr (h x (by simp)))]
    rw [List.foldl_cons, hx]
    exact ih fun ij hij => h ij (by simp [hij])

theorem mem_indexPairs (alo ahi blo bhi : Nat) (ij : Nat × Nat)
    (h : ij ∈ indexPairs alo ahi blo bhi) :
    alo ≤ ij.1 ∧ ij.1 < ahi ∧ blo ≤ ij.2 ∧ ij.2 < bhi := by
  simp only [indexPairs, List.mem_flatMap, List.mem_map] at h
  obtain ⟨i, hi, j, hj, rfl⟩ := h
  rw [List.mem_range'_1] at hi hj
  exact ⟨hi.1, by omega, hj.1, by omega⟩

theorem foldl_flmStep_bounds (a b : List Char) (alo ahi blo bhi : Nat)
    (l : List (Nat × Nat))
    (hl : ∀ ij ∈ l, alo ≤ ij.1 ∧ ij.1 < ahi ∧ blo ≤ ij.2 ∧ ij.2 < bhi)
    (s : Nat × Nat × Nat)
    (hs : s.2.2 ≠ 0 →
      alo ≤ s.1 ∧ s.1 + s.2.2 ≤ ahi ∧ blo ≤ s.2.1 ∧ s.2.1 + s.2.2 ≤ bhi) :
    (l.foldl (flmStep a b ahi bhi) s).2.2 ≠ 0 →
      alo ≤ (l.foldl (flmStep a b ahi bhi) s).1 ∧
      (l.foldl (flmStep a b ahi bhi) s).1 + (l.foldl (flmStep a b ahi bhi) s).2.2 ≤ ahi ∧
      blo ≤ (l.foldl (flmStep a b ahi bhi) s).2.1 ∧
      (l.foldl (flmStep a b ahi bhi) s).2.1 + (l.foldl (flmStep a b ahi bhi) s).2.2 ≤ bhi := by
  induction l generalizing s with
  | nil => exact hs
  | cons x xs ih =>
    rw [List.foldl_cons]
    refine ih (fun ij hij => hl ij (by simp [hij])) _ ?_
    intro hk
    unfold flmStep
    by_cases hcase : s.2.2 < matchLenAt a b ahi bhi x.1 x.2
    · rw [if_pos hcase]
      obtain ⟨h1, h2, h3, h4⟩ := hl x (by simp)
      have k1 := matchLenAt_le_a a b ahi bhi x.1 x.2
      have k2 := matchLenAt_le_b a b ahi bhi x.1 x.2
      show alo ≤ x.1 ∧ x.1 + matchLenAt a b ahi bhi x.1 x.2 ≤ ahi ∧
        blo ≤ x.2 ∧ x.2 + matchLenAt a b ahi bhi x.1 x.2 ≤ bhi
      exact ⟨h1, by omega, h3, by omega⟩
    · rw [if_neg hcase]
      exact hs (by simpa [flmStep, if_neg hcase] using hk)

theorem flm_bounds (a b : List Char) (alo ahi blo bhi : Nat)
    (h : (flm a b alo ahi blo bhi).2.2 ≠ 0) :
    alo ≤ (flm a b alo ahi blo bhi).1 ∧
    (flm a b alo ahi blo bhi).1 + (flm a b alo ahi blo bhi).2.2 ≤ ahi ∧
    blo ≤ (flm a b alo ahi blo bhi).2.1 ∧
    (flm a b alo ahi blo bhi).2.1 + (flm a b alo ahi blo bhi).2.2 ≤ bhi := by
  unfold flm at h ⊢
  exact foldl_flmStep_bounds a b alo ahi blo bhi _
    (fun ij => mem_indexPairs alo ahi blo bhi ij) _ (by intro hk; cases hk rfl) h

theorem flm_empty_a (a b : List Char) (alo ahi blo bhi : Nat) (h : ahi ≤ alo) :
    flm a b alo ahi blo bhi = (alo, blo, 0) := by
  unfold flm indexPairs
  rw [Nat.sub_eq_zero_of_le h]
  rfl

/-- `SequenceMatcher.get_matching_blocks`, before collapsing adjacent blocks:
recursively split around the longest match, in sorted order.  The recursion is
driven by a structural fuel argument so that it is kernel-computable;
`mbFuel_stable` below shows that any fuel at least `(ahi - alo) + (bhi - blo)`
gives the same result, i.e. the fuel bound is never the deciding factor and
this equals the unbounded recursion of `get_matching_blocks`. -/
def mbFuel (a b : List Char) : Nat → Nat → Nat → Nat → Nat → List (Nat × Nat × Nat)
  | 0, _, _, _, _ => []
  | fuel + 1, alo, ahi, blo, bhi =>
    if (flm a b alo ahi blo bhi).2.2 = 0 then []
    else
      mbFuel a b fuel alo (flm a b alo ahi blo bhi).1 blo
          (flm a b alo ahi blo bhi).2.1 ++
        (flm a b alo ahi blo bhi) ::
          mbFuel a b fuel
            ((flm a b alo ahi blo bhi).1 + (flm a b alo ahi blo bhi).2.2) ahi
            ((flm a b alo ahi blo bhi).2.1 + (flm a b alo ahi blo bhi).2.2) bhi

theorem mbFuel_stable (a b : List Char) :
    ∀ f1 f2 alo ahi blo bhi, (ahi - alo) + (bhi - blo) ≤ f1 →
      (ahi - alo) + (bhi - blo) ≤ f2 →
      mbFuel a b f1 alo ahi blo bhi = mbFuel a b f2 alo ahi blo bhi := by
  intro f1
  induction f1 with
  | zero =>
    intro f2 alo ahi blo bhi h1 h2
    have ha : ahi ≤ alo := by omega
    cases f2 with
    | zero => rfl
    | succ g =>
      show mbFuel a b 0 alo ahi blo bhi = mbFuel a b (g + 1) alo ahi blo bhi
      rw [mbFuel, mbFuel, if_pos]
      rw [flm_empty_a a b alo ahi blo bhi ha]
  | succ f ih =>
    intro f2 alo ahi blo bhi h1 h2
    cases f2 with
    | zero =>
      have ha : ahi ≤ alo := by omega
      show mbFuel a b (f + 1) alo ahi blo bhi = mbFuel a b 0 alo ahi blo bhi
      rw [mbFuel, mbFuel, if_pos]
      rw [flm_empty_a a b alo ahi blo bhi ha]
    | succ g =>
      rw [mbFuel, mbFuel]
      by_cases hk : (flm a b alo ahi blo bhi).2.2 = 0
      · rw [if_pos hk, if_pos hk]
      · rw [if_neg hk, if_neg hk]
        have hb := flm_bounds a b alo ahi blo bhi hk
        rw [ih g alo (flm a b alo ahi blo bhi).1 blo (flm a b alo ahi blo bhi).2.1
              (by omega) (by omega),
            ih g ((flm a b alo ahi blo bhi).1 + (flm a b alo ahi blo bhi).2.2) ahi
              ((flm a b alo ahi blo bhi).2.1 + (flm a b alo ahi blo bhi).2.2) bhi
              (by omega) (by omega)]

/-- The collapsing loop at the end of `get_matching_blocks`: merge adjacent
blocks, drop the zero-size placeholder, append the `(la, lb, 0)` sentinel. -/
def nonAdjacentGo (la lb : Nat) :
    Nat × Nat × Nat → List (Nat × Nat × Nat) → List (Nat × Nat × Nat)
  | (i1, j1, k1), [] =>
      (if k1 = 0 then [] else [(i1, j1, k1)]) ++ [(la, lb, 0)]
  | (i1, j1, k1), (i2, j2, k2) :: rest =>
      if i1 + k1 = i2 ∧ j1 + k1 = j2 then
        nonAdjacentGo la lb (i1, j1, k1 + k2) rest
      else
        (if k1 = 0 then [] else [(i1, j1, k1)]) ++ nonAdjacentGo la lb (i2, j2, k2) rest

/-- `SequenceMatcher.get_matching_blocks` for the whole strings. -/
def matchingBlocks (a b : List Char) : List (Nat × Nat × Nat) :=
  nonAdjacentGo a.length b.length (0, 0, 0)
    (mbFuel a b (a.length + b.length) 0 a.length 0 b.length)

/-- The opcode walk of `get_opcodes`, keeping only the text of `new` covered
by `replace` and `insert` operations (`equal` and `delete` contribute
nothing), exactly as `find_diff` consumes the opcodes. -/
def opcodesGo (new : List Char) : Nat → Nat → List (Nat × Nat × Nat) → List Char
  | _, _, [] => []
  | i, j, (ai, bj, k) :: rest =>
      (if i < ai ∧ j < bj then (new.take bj).drop j
       else if i < ai then []
       else if j < bj then (new.take bj).drop j
       else []) ++ opcodesGo new (ai + k) (bj + k) rest

/-- The `else` path of `find_diff`: concatenation of the substrings of
`new_text` covered by `insert` and `replace` opcodes. -/
def opcodeDiff (old_text new_text : List Char) : List Char :=
  opcodesGo new_text 0 0 (matchingBlocks old_text new_text)

/-- `SubtitleProcessor.find_diff`. -/
def find_diff (old_text new_text : List Char) : List Char :=
  if old_text = [] then new_text
  else if (flm old_text new_text 0 old_text.length 0 new_text.length).1 = 0 ∧
          (flm old_text new_text 0 old_text.length 0 new_text.length).2.1 = 0 ∧
          old_text.length < new_text.length then
    new_text.drop old_text.length
  else opcodeDiff old_text new_text

/-- The scan of `SubtitleProcessor.clean_duplicates`: while at least three
tokens remain, drop the leading three-token chunk if its space-joined form
occurs as a substring of the space-joined remainder, else keep one token. -/
def cleanLoop : List (List Char) → List (List Char)
  | w1 :: w2 :: w3 :: rest =>
      if containsSub (spaceJoin [w1, w2, w3]) (spaceJoin rest) then cleanLoop rest
      else w1 :: cleanLoop (w2 :: w3 :: rest)
  | ws => ws

/-- `SubtitleProcessor.clean_duplicates`. -/
def clean_duplicates (text : List Char) : List Char :=
  if (words text).length ≤ 3 then text
  else spaceJoin (cleanLoop (words text))


theorem indexPairs_zero_succ (n m : Nat) :
    indexPairs 0 (n + 1) 0 (m + 1) =
      (0, 0) :: (((List.range' 1 m).map fun j => ((0 : Nat), j)) ++
        (List.range' 1 n).flatMap fun i => (List.range' 0 (m + 1)).map fun j => (i, j)) := by
  simp [indexPairs, List.range'_succ]

theorem flm_whole (a b : List Char) (ha : a ≠ []) (h : a <+: b) :
    flm a b 0 a.length 0 b.length = (0, 0, a.length) := by
  obtain ⟨u, rfl⟩ := h
  obtain ⟨n, hn⟩ : ∃ n, a.length = n + 1 := by
    cases a with
    | nil => exact absurd rfl ha
    | cons c cs => exact ⟨cs.length, rfl⟩
  obtain ⟨m, hm⟩ : ∃ m, (a ++ u).length = m + 1 := by
    refine ⟨(a ++ u).length - 1, ?_⟩
    rw [List.length_append]
    omega
  unfold flm
  rw [hn, hm, indexPairs_zero_succ, List.foldl_cons]
  have h00 : matchLenAt a (a ++ u) (n + 1) (m + 1) 0 0 = n + 1 := by
    unfold matchLenAt
    rw [List.drop_zero, List.drop_zero, Nat.sub_zero, Nat.sub_zero, ← hn, ← hm,
      List.take_length, List.take_length, commonLen_self_append, hn]
  have hstep : flmStep a (a ++ u) (n + 1) (m + 1) (0, 0, 0) (0, 0) = (0, 0, n + 1) := by
    unfold flmStep
    norm_num [h00]
  rw [hstep]
  apply foldl_flmStep_eq
  intro ij hij
  calc matchLenAt a (a ++ u) (n + 1) (m + 1) ij.1 ij.2
      ≤ (n + 1) - ij.1 := matchLenAt_le_a a (a ++ u) (n + 1) (m + 1) ij.1 ij.2
    _ ≤ n + 1 := Nat.sub_le _ _

/-- A completed phrase, as stored by `_save_phrase` (in-memory backend:
a row of `phrase_history`; sqlite backend: a row of the `phrases` table). -/
structure Phrase where
  text : List Char
  start_time : ℚ
  end_time : ℚ
  deriving DecidableEq, Repr

/-- The observable output events of one `process_subtitle` call (the console
writes of the continuation branch, the phrase save and the new-phrase banner
of the boundary branch). -/
inductive MeetEvent where
  | updated (text : List Char)
  | finalized (text : List Char) (start_time end_time : ℚ)
  | started (text : List Char)
  deriving DecidableEq, Repr

/-- The processor state: `last_update_time` and `current_phrase` are the
in-memory fields of `SubtitleProcessor`; `full_text` / `db_timestamp` model
the latest snapshot held by the store (`text_db` resp. the newest `subtitles`
row); `phrase_history` is the append-only phrase log. -/
structure ProcState where
  last_update_time : ℚ
  current_phrase : List Char
  full_text : List Char
  db_timestamp : Option ℚ
  phrase_history : List Phrase
  deriving DecidableEq, Repr

/-- The state right after `__init__`: empty store, empty accumulator,
`last_update_time` set to the construction-time clock reading. -/
def initState (t0 : ℚ) : ProcState :=
  { last_update_time := t0, current_phrase := [], full_text := [],
    db_timestamp := none, phrase_history := [] }

/-- The continuation branch (`delta_time < 2.0`) of `process_subtitle`,
before the final store write: update the accumulator and print the running
phrase. -/
def continuationCore (s : ProcState) (current_text diff_text : List Char) :
    ProcState × List MeetEvent :=
  if s.current_phrase ≠ [] then
    if containsSub s.current_phrase current_text then
      ({ s with current_phrase := s.current_phrase ++ diff_text },
       [MeetEvent.updated (s.current_phrase ++ diff_text)])
    else
      ({ s with current_phrase := current_text },
       [MeetEvent.updated current_text])
  else
    ({ s with current_phrase := diff_text },
     [MeetEvent.updated diff_text])

/-- The boundary branch (`delta_time >= 2.0`) of `process_subtitle`, before
the final store write: finalize a non-empty accumulator via `_save_phrase`
(with `start_time = self.last_update_time`, `end_time = update_time`) and
seed the next phrase with the fresh delta. -/
def boundaryCore (s : ProcState) (diff_text : List Char) (update_time : ℚ) :
    ProcState × List MeetEvent :=
  if s.current_phrase ≠ [] then
    ({ s with current_phrase := diff_text,
              phrase_history := s.phrase_history ++
                [⟨s.current_phrase, s.last_update_time, update_time⟩] },
     [MeetEvent.finalized s.current_phrase s.last_update_time update_time,
      MeetEvent.started diff_text])
  else
    ({ s with current_phrase := diff_text }, [MeetEvent.started diff_text])

/-- The store write of step 8 (`_save_to_db`): replace the latest snapshot
with `current_text`, stamped with a fresh clock reading `db_time`. -/
def applyStore (s : ProcState) (current_text : List Char) (db_time : ℚ) : ProcState :=
  { s with full_text := current_text, db_timestamp := some db_time }

/-- `SubtitleProcessor.process_subtitle`.  `update_time` is the `time.time()`
read at the top of the call, `db_time` the one taken inside `_save_to_db`. -/
def process_subtitle (s : ProcState) (current_text : List Char)
    (update_time db_time : ℚ) : ProcState × List MeetEvent :=
  if current_text = s.full_text then (s, [])
  else if strip (clean_duplicates (find_diff s.full_text current_text)) = [] then (s, [])
  else
    let branch :=
      if update_time - s.last_update_time < 2 then
        continuationCore s current_text (clean_duplicates (find_diff s.full_text current_text))
      else
        boundaryCore s (clean_duplicates (find_diff s.full_text current_text)) update_time
    ({ applyStore branch.1 current_text db_time with last_update_time := update_time },
     branch.2)

/-- `process_subtitle` with a fallible step-8 store write: when `storeOk` is
`false`, `_save_to_db` raises, the exception propagates, and the state at
that moment (accumulator and phrase history already updated, snapshot and
`last_update_time` untouched) is returned in the error. -/
def process_subtitleF (s : ProcState) (current_text : List Char)
    (update_time db_time : ℚ) (storeOk : Bool) :
    Except (ProcState × List MeetEvent) (ProcState × List MeetEvent) :=
  if current_text = s.full_text then .ok (s, [])
  else if strip (clean_duplicates (find_diff s.full_text current_text)) = [] then .ok (s, [])
  else
    let branch :=
      if update_time - s.last_update_time < 2 then
        continuationCore s current_text (clean_duplicates (find_diff s.full_text current_text))
      else
        boundaryCore s (clean_duplicates (find_diff s.full_text current_text)) update_time
    if storeOk then
      .ok ({ applyStore branch.1 current_text db_time with last_update_time := update_time },
           branch.2)
    else .error branch

/-- Iterate `process_subtitle` over a list of `(current_text, update_time,
db_time)` inputs, collecting the emitted events. -/
def runProcess (s : ProcState) (evs : List MeetEvent) :
    List (List Char × ℚ × ℚ) → ProcState × List MeetEvent
  | [] => (s, evs)
  | (c, t, d) :: rest =>
      runProcess (process_subtitle s c t d).1 (evs ++ (process_subtitle s c t d).2) rest

theorem process_subtitleF_true (s : ProcState) (current_text : List Char)
    (update_time db_time : ℚ) :
    process_subtitleF s current_text update_time db_time true =
      .ok (process_subtitle s current_text update_time db_time) := by
  unfold process_subtitleF process_subtitle
  split
  · rfl
  · split
    · rfl
    · rfl



theorem continuationCore_fields (s : ProcState) (c diff : List Char) :
    (continuationCore s c diff).1.last_update_time = s.last_update_time ∧
    (continuationCore s c diff).1.full_text = s.full_text ∧
    (continuationCore s c diff).1.db_timestamp = s.db_timestamp ∧
    (continuationCore s c diff).1.phrase_history = s.phrase_history := by
  unfold continuationCore
  split
  · split <;> simp
  · simp

theorem boundaryCore_fields (s : ProcState) (diff : List Char) (t : ℚ) :
    (boundaryCore s diff t).1.last_update_time = s.last_update_time ∧
    (boundaryCore s diff t).1.full_text = s.full_text ∧
    (boundaryCore s diff t).1.db_timestamp = s.db_timestamp := by
  unfold boundaryCore
  split <;> simp

/-- C2: when `new_text` starts with `old_text` and is strictly longer,
`find_diff` returns exactly the literal suffix `new_text[len(old_text):]`. -/
theorem c2_growth_returns_suffix (old_text new_text : List Char)
    (h : old_text <+: new_text) (hlen : old_text.length < new_text.length) :
    find_diff old_text new_text = new_text.drop old_text.length := by
  by_cases he : old_text = []
  · subst he
    simp [find_diff]
  · unfold find_diff
    rw [if_neg he, flm_whole old_text new_text he h, if_pos ⟨rfl, rfl, hlen⟩]

/-- Witness for C2 at a concrete growing snapshot pair. -/
theorem c2_growth_returns_suffix_witness :
    find_diff "ab".toList "abc".toList = "c".toList := by
  have h := c2_growth_returns_suffix "ab".toList "abc".toList (by decide) (by decide)
  rw [h]
  decide

/-- C3 (amended): for non-empty `old_text`, whenever the longest matching
block does not start at position 0 of both strings or `new_text` is not
strictly longer, `find_diff` returns the concatenation of the `insert` and
`replace` opcode substrings of `new_text`.  (The literal-suffix shortcut is
keyed on the longest match starting at `(0, 0)`, not on `old_text` being a
prefix of `new_text`.) -/
theorem c3_opcode_path (old_text new_text : List Char) (ho : old_text ≠ [])
    (h : ¬ ((flm old_text new_text 0 old_text.length 0 new_text.length).1 = 0 ∧
            (flm old_text new_text 0 old_text.length 0 new_text.length).2.1 = 0 ∧
            old_text.length < new_text.length)) :
    find_diff old_text new_text = opcodeDiff old_text new_text := by
  unfold find_diff
  rw [if_neg ho, if_neg h]

/-- Witness for C3 (amended) at a concrete corrected snapshot pair. -/
theorem c3_opcode_path_witness :
    find_diff "abc".toList "xb".toList = "x".toList := by
  have h := c3_opcode_path "abc".toList "xb".toList (by decide) (by decide)
  rw [h]
  decide

/-- Counterexample to C3 as stated: for `old = "ab"`, `new = "axb"`, `old` is
not a prefix of `new`, yet `find_diff` takes the literal-suffix shortcut
(the longest matching block `"a"` starts at position 0 in both strings) and
returns `"b"`, not the insert/replace concatenation `"x"`. -/
theorem c3_counterexample :
    ¬ ("ab".toList <+: "axb".toList) ∧
    "ab".toList ≠ ([] : List Char) ∧
    find_diff "ab".toList "axb".toList = "b".toList ∧
    opcodeDiff "ab".toList "axb".toList = "x".toList ∧
    "b".toList ≠ "x".toList := by
  refine ⟨by decide, by decide, by decide, by decide, by decide⟩

/-- C5: a repeated identical snapshot, or one whose suppressed delta strips
to empty, is a complete no-op: state unchanged (accumulator, stored snapshot,
last-update time) and no events. -/
theorem c5_noop (s : ProcState) (current_text : List Char) (update_time db_time : ℚ)
    (h : current_text = s.full_text ∨
      strip (clean_duplicates (find_diff s.full_text current_text)) = []) :
    process_subtitle s current_text update_time db_time = (s, []) := by
  rcases h with h | h
  · simp [process_subtitle, h]
  · by_cases hc : current_text = s.full_text
    · simp [process_subtitle, hc]
    · simp [process_subtitle, hc, h]

/-- Witness for C5: a whitespace-only update is a no-op. -/
theorem c5_noop_witness :
    process_subtitle (initState 0) " ".toList 9 9 = (initState 0, []) :=
  c5_noop (initState 0) " ".toList 9 9 (Or.inr (by decide))

/-- C6 (amended): `clean_duplicates` is idempotent on every input whose
cleaned output has at most 3 whitespace-separated tokens (in particular on
every input with at most 3 tokens); it is not idempotent in general. -/
theorem c6_idempotent_on_short_output (t : List Char)
    (h : (words (clean_duplicates t)).length ≤ 3) :
    clean_duplicates (clean_duplicates t) = clean_duplicates t := by
  have hu : clean_duplicates (clean_duplicates t) =
      if (words (clean_duplicates t)).length ≤ 3 then clean_duplicates t
      else spaceJoin (cleanLoop (words (clean_duplicates t))) := rfl
  rw [hu, if_pos h]

/-- Witness for C6 (amended) on a fully duplicated input. -/
theorem c6_idempotent_on_short_output_witness :
    clean_duplicates (clean_duplicates "a b c a b c a b c".toList) =
      clean_duplicates "a b c a b c a b c".toList :=
  c6_idempotent_on_short_output "a b c a b c a b c".toList (by decide)

/-- Counterexample to C6 as stated: dropping the window `q q q` of this input
glues `xa` and `b cy` together, which makes the leading chunk `a b c` occur
as a substring (`x[a b c]y`) of the joined remainder on a second pass, so a
second application removes more text. -/
theorem c6_counterexample :
    clean_duplicates (clean_duplicates "a b c xa q q q b cy q q q".toList) ≠
      clean_duplicates "a b c xa q q q b cy q q q".toList := by
  decide

/-- C10: with more than 3 whitespace-split tokens, `clean_duplicates`
re-joins its kept tokens with single spaces (its output depends only on the
token list, so runs of whitespace collapse even when no window is dropped);
with at most 3 tokens the input is returned verbatim. -/
theorem c10_whitespace_normalization (t : List Char) :
    ((words t).length ≤ 3 → clean_duplicates t = t) ∧
    (3 < (words t).length →
      clean_duplicates t = spaceJoin (cleanLoop (words t)) ∧
      ∀ u : List Char, words u = words t → clean_duplicates u = clean_duplicates t) := by
  constructor
  · intro h
    simp [clean_duplicates, h]
  · intro h
    have h3 : ¬ (words t).length ≤ 3 := not_le.mpr h
    refine ⟨by simp [clean_duplicates, h3], ?_⟩
    intro u hu
    simp [clean_duplicates, hu, h3]

/-- Witness for C10: whitespace collapses on a 4-token input with no
duplicate window, and a 2-token input keeps its double space. -/
theorem c10_whitespace_normalization_witness :
    clean_duplicates "a  b c d".toList = "a b c d".toList ∧
    "a b c d".toList ≠ "a  b c d".toList ∧
    clean_duplicates "a  b".toList = "a  b".toList := by
  refine ⟨?_, by decide, (c10_whitespace_normalization "a  b".toList).1 (by decide)⟩
  have h := ((c10_whitespace_normalization "a  b c d".toList).2 (by decide)).1
  rw [h]
  decide

/-- C7: with a non-trivial delta and elapsed time exactly 2.0 seconds, the
boundary branch is taken (the continuation comparison is strict). -/
theorem c7_tie_takes_boundary (s : ProcState) (current_text : List Char)
    (update_time db_time : ℚ)
    (hc : current_text ≠ s.full_text)
    (hne : strip (clean_duplicates (find_diff s.full_text current_text)) ≠ [])
    (ht : update_time - s.last_update_time = 2) :
    process_subtitle s current_text update_time db_time =
      ({ applyStore
           (boundaryCore s (clean_duplicates (find_diff s.full_text current_text))
             update_time).1
           current_text db_time with last_update_time := update_time },
       (boundaryCore s (clean_duplicates (find_diff s.full_text current_text))
         update_time).2) := by
  have hlt : ¬ (update_time - s.last_update_time < 2) := by
    rw [ht]
    exact lt_irrefl _
  simp [process_subtitle, hc, hne, hlt]

/-- Witness for C7 at a concrete tie: the phrase is finalized, not extended. -/
theorem c7_tie_takes_boundary_witness :
    process_subtitle
      { last_update_time := 0, current_phrase := "Hi".toList,
        full_text := "Hi".toList, db_timestamp := some 0, phrase_history := [] }
      "Bye".toList 2 2 =
      ({ last_update_time := 2, current_phrase := "e".toList,
         full_text := "Bye".toList, db_timestamp := some 2,
         phrase_history := [⟨"Hi".toList, 0, 2⟩] },
       [MeetEvent.finalized "Hi".toList 0 2, MeetEvent.started "e".toList]) := by
  have h := c7_tie_takes_boundary
    { last_update_time := 0, current_phrase := "Hi".toList,
      full_text := "Hi".toList, db_timestamp := some 0, phrase_history := [] }
    "Bye".toList 2 2 (by decide) (by with_unfolding_all decide)
    (by with_unfolding_all decide)
  rw [h]
  with_unfolding_all decide

/-- C1: in the Accumulating state, a gap of at least 2.0 seconds with a
non-trivial suppressed delta appends exactly one phrase to the phrase
history; its text is the accumulator contents right before the call, its
start time is the stored last-update time, its end time is this call's time,
and the two timestamps bracket the gap. -/
theorem c1_gap_finalizes_one_phrase (s : ProcState) (current_text : List Char)
    (update_time db_time : ℚ)
    (hc : current_text ≠ s.full_text)
    (hacc : s.current_phrase ≠ [])
    (hgap : 2 ≤ update_time - s.last_update_time)
    (hne : strip (clean_duplicates (find_diff s.full_text current_text)) ≠ []) :
    (process_subtitle s current_text update_time db_time).1.phrase_history =
      s.phrase_history ++ [⟨s.current_phrase, s.last_update_time, update_time⟩] ∧
    s.last_update_time ≤ update_time := by
  have hlt : ¬ (update_time - s.last_update_time < 2) := not_lt.mpr hgap
  constructor
  · simp [process_subtitle, hc, hne, hlt, boundaryCore, hacc, applyStore]
  · linarith

/-- Witness for C1 at a concrete boundary call. -/
theorem c1_gap_finalizes_one_phrase_witness :
    (process_subtitle
        { last_update_time := 0, current_phrase := "Hi".toList,
          full_text := "Hi".toList, db_timestamp := some 0, phrase_history := [] }
        "Bye".toList 3 3).1.phrase_history = [⟨"Hi".toList, 0, 3⟩] ∧
    (0 : ℚ) ≤ 3 := by
  have h := c1_gap_finalizes_one_phrase
    { last_update_time := 0, current_phrase := "Hi".toList,
      full_text := "Hi".toList, db_timestamp := some 0, phrase_history := [] }
    "Bye".toList 3 3 (by decide) (by decide)
    (by with_unfolding_all decide) (by decide)
  simpa using h

/-- C4 (amended): a finalized phrase's start time is the in-memory
last-update time at finalization, i.e. the timestamp of the update
immediately preceding the boundary — which is the accumulation-start
timestamp only when the phrase was accumulated in a single update. -/
theorem c4_start_time_is_previous_update_time (s : ProcState) (current_text : List Char)
    (update_time db_time : ℚ)
    (hc : current_text ≠ s.full_text)
    (hacc : s.current_phrase ≠ [])
    (hgap : 2 ≤ update_time - s.last_update_time)
    (hne : strip (clean_duplicates (find_diff s.full_text current_text)) ≠ []) :
    ∃ p : Phrase,
      (process_subtitle s current_text update_time db_time).1.phrase_history =
        s.phrase_history ++ [p] ∧
      p.start_time = s.last_update_time ∧
      p.end_time = update_time ∧
      p.text = s.current_phrase := by
  refine ⟨⟨s.current_phrase, s.last_update_time, update_time⟩, ?_, rfl, rfl, rfl⟩
  have hlt : ¬ (update_time - s.last_update_time < 2) := not_lt.mpr hgap
  simp [process_subtitle, hc, hne, hlt, boundaryCore, hacc, applyStore]

/-- Witness for C4 (amended) at a concrete boundary call. -/
theorem c4_start_time_is_previous_update_time_witness :
    ∃ p : Phrase,
      (process_subtitle
          { last_update_time := 0, current_phrase := "Yo".toList,
            full_text := "Yo".toList, db_timestamp := some 0, phrase_history := [] }
          "Hm!".toList 5 5).1.phrase_history = [] ++ [p] ∧
      p.start_time = 0 ∧ p.end_time = 5 ∧ p.text = "Yo".toList :=
  c4_start_time_is_previous_update_time
    { last_update_time := 0, current_phrase := "Yo".toList,
      full_text := "Yo".toList, db_timestamp := some 0, phrase_history := [] }
    "Hm!".toList 5 5 (by decide) (by decide)
    (by with_unfolding_all decide) (by decide)

/-- Counterexample to C4 as stated: the accumulation of `"Hello there"`
begins with the update at time 0 (the accumulator becomes `"Hello"` and then
grows at time 1), but the phrase finalized at time 4 records `start_time = 1`
— the timestamp of the update immediately preceding the boundary — not 0. -/
theorem c4_counterexample :
    (runProcess (initState 0) [] [("Hello".toList, 0, 0)]).1.current_phrase =
      "Hello".toList ∧
    (runProcess (initState 0) []
        [("Hello".toList, 0, 0), ("Hello there".toList, 1, 1)]).1.current_phrase =
      "Hello there".toList ∧
    (runProcess (initState 0) []
        [("Hello".toList, 0, 0), ("Hello there".toList, 1, 1),
         ("Bye".toList, 4, 4)]).1.phrase_history =
      [⟨"Hello there".toList, 1, 4⟩] ∧
    (1 : ℚ) ≠ 0 := by
  with_unfolding_all decide

/-- C8 (amended): every run that is not a no-op writes `(current_text,
db_time)` back to the store, where `db_time` is the fresh clock reading taken
inside `_save_to_db`, and sets the in-memory last-update time to the
`update_time` read at the start of the call. -/
theorem c8_write_back_fresh_timestamp (s : ProcState) (current_text : List Char)
    (update_time db_time : ℚ)
    (hc : current_text ≠ s.full_text)
    (hne : strip (clean_duplicates (find_diff s.full_text current_text)) ≠ []) :
    (process_subtitle s current_text update_time db_time).1.full_text = current_text ∧
    (process_subtitle s current_text update_time db_time).1.db_timestamp = some db_time ∧
    (process_subtitle s current_text update_time db_time).1.last_update_time = update_time := by
  simp [process_subtitle, hc, hne, applyStore]

/-- Witness for C8 (amended) at a concrete call. -/
theorem c8_write_back_fresh_timestamp_witness :
    (process_subtitle (initState 0) "ok".toList 1 5).1.full_text = "ok".toList ∧
    (process_subtitle (initState 0) "ok".toList 1 5).1.db_timestamp = some 5 ∧
    (process_subtitle (initState 0) "ok".toList 1 5).1.last_update_time = 1 :=
  c8_write_back_fresh_timestamp (initState 0) "ok".toList 1 5 (by decide) (by decide)

/-- Counterexample to C8 as stated: with call-start time 1 and store-write
time 2, the snapshot is stamped 2, not the single `now = 1` of the call
(whose value does go to `last_update_time`). -/
theorem c8_counterexample :
    (process_subtitle (initState 0) "hi".toList 1 2).1.last_update_time = 1 ∧
    (process_subtitle (initState 0) "hi".toList 1 2).1.db_timestamp = some 2 ∧
    (2 : ℚ) ≠ 1 := by
  with_unfolding_all decide

/-- C9: when the step-8 store write fails, the error propagates out of
`process_subtitle`, and the state carried by the error keeps the accumulator
(and phrase history) exactly as this call computed them, while the stored
snapshot and the last-update time are still the old ones. -/
theorem c9_store_failure_keeps_accumulator (s : ProcState) (current_text : List Char)
    (update_time db_time : ℚ)
    (hc : current_text ≠ s.full_text)
    (hne : strip (clean_duplicates (find_diff s.full_text current_text)) ≠ []) :
    ∃ e : ProcState × List MeetEvent,
      process_subtitleF s current_text update_time db_time false = .error e ∧
      e.1.current_phrase =
        (process_subtitle s current_text update_time db_time).1.current_phrase ∧
      e.1.phrase_history =
        (process_subtitle s current_text update_time db_time).1.phrase_history ∧
      e.1.full_text = s.full_text ∧
      e.1.db_timestamp = s.db_timestamp ∧
      e.1.last_update_time = s.last_update_time := by
  by_cases hlt : update_time - s.last_update_time < 2
  · refine ⟨continuationCore s current_text
        (clean_duplicates (find_diff s.full_text current_text)), ?_, ?_, ?_, ?_, ?_, ?_⟩
    · simp [process_subtitleF, hc, hne, hlt]
    · simp [process_subtitle, hc, hne, hlt, applyStore]
    · simp [process_subtitle, hc, hne, hlt, applyStore]
    · exact (continuationCore_fields s current_text _).2.1
    · exact (continuationCore_fields s current_text _).2.2.1
    · exact (continuationCore_fields s current_text _).1
  · refine ⟨boundaryCore s
        (clean_duplicates (find_diff s.full_text current_text)) update_time,
        ?_, ?_, ?_, ?_, ?_, ?_⟩
    · simp [process_subtitleF, hc, hne, hlt]
    · simp [process_subtitle, hc, hne, hlt, applyStore]
    · simp [process_subtitle, hc, hne, hlt, applyStore]
    · exact (boundaryCore_fields s _ update_time).2.1
    · exact (boundaryCore_fields s _ update_time).2.2
    · exact (boundaryCore_fields s _ update_time).1

/-- Witness for C9 at a concrete failing store write. -/
theorem c9_store_failure_keeps_accumulator_witness :
    ∃ e : ProcState × List MeetEvent,
      process_subtitleF (initState 0) "Hey".toList 1 1 false = .error e ∧
      e.1.current_phrase = (process_subtitle (initState 0) "Hey".toList 1 1).1.current_phrase ∧
      e.1.phrase_history = (process_subtitle (initState 0) "Hey".toList 1 1).1.phrase_history ∧
      e.1.full_text = (initState 0).full_text ∧
      e.1.db_timestamp = (initState 0).db_timestamp ∧
      e.1.last_update_time = (initState 0).last_update_time :=
  c9_store_failure_keeps_accumulator (initState 0) "Hey".toList 1 1
    (by decide) (by decide)
